import Mathlib

/-
  Verification development for the df-enrich enrichment facade
  (src/df_enrich/accessor.py).

  The facade operates on an in-memory table (a pandas DataFrame): named,
  dtype-tagged columns over a row index, with a side-channel metadata
  mapping (`attrs`).  We embed a table as a structure of parallel lists;
  cell values are `Option Rat` (none models a missing value / NaN).
  Each facade operation is a pure function out of a table; fallible
  operations return `Except Err`; non-fatal warnings are returned as a
  list of message strings alongside the result.

  External collaborators that are not part of this repository (pandera
  schema validation, the YAML parser, the pandas expression evaluator,
  astype value conversion, ydata-profiling availability) are modelled
  from the spec, each marked `Modelled from the spec:` at its definition.
-/

set_option autoImplicit false

namespace DfEnrich

/-- Values stored in the `attrs` side-channel metadata mapping of a table:
booleans (provenance flags), strings (schema description), or a recorded
specification mapping (derivations / dtype spec). -/
inductive AttrVal where
  | b (x : Bool)
  | s (x : String)
  | m (x : List (String × String))
  deriving DecidableEq, Inhabited

/-- A table: named dtype-tagged columns, a row index, row-major cell data
(each row is positionally parallel to `cols`), and the `attrs` metadata
mapping.  Cells are `Option Rat`; `none` models a missing value (NaN). -/
structure Table where
  cols : List (String × String)
  index : List Int
  rows : List (List (Option Rat))
  attrs : List (String × AttrVal)
  deriving DecidableEq, Inhabited

/-- Column names of a table, in order (pandas `df.columns`). -/
def colNames (t : Table) : List String := t.cols.map Prod.fst

/-- Well-formedness: every row has exactly one cell per column. -/
def wf (t : Table) : Bool := t.rows.all (fun row => row.length == t.cols.length)

/-- Python dictionary assignment `attrs[k] = v`: replace the value at an
existing key in place, otherwise append the new key at the end. -/
def setAttr (l : List (String × AttrVal)) (k : String) (v : AttrVal) :
    List (String × AttrVal) :=
  if l.any (fun p => p.1 == k) then
    l.map (fun p => if p.1 == k then (k, v) else p)
  else
    l ++ [(k, v)]

/-- Python dictionary read `attrs.get(k)`: the value at the first (and, in
a dict, only) occurrence of the key. -/
def getAttr : List (String × AttrVal) → String → Option AttrVal
  | [], _ => none
  | p :: l, k => if p.1 == k then some p.2 else getAttr l k

/-- The Python exception kinds raised by the accessor's operations. -/
inductive Err where
  | schemaError (msg : String)
  | yamlError (msg : String)
  | valueError (msg : String)
  | typeError (msg : String)
  | notImplementedError (msg : String)
  | attributeError (msg : String)
  deriving DecidableEq, Inhabited

instance instDecEqExcept {α β : Type _} [DecidableEq α] [DecidableEq β] :
    DecidableEq (Except α β)
  | .error a, .error b =>
    if h : a = b then isTrue (h ▸ rfl)
    else isFalse (fun hh => h (Except.error.inj hh))
  | .error _, .ok _ => isFalse (fun hh => Except.noConfusion hh)
  | .ok _, .error _ => isFalse (fun hh => Except.noConfusion hh)
  | .ok a, .ok b =>
    if h : a = b then isTrue (h ▸ rfl)
    else isFalse (fun hh => h (Except.ok.inj hh))

/-- Index of the first column with the given name (pandas column lookup
`df[c]` resolves to the first matching column). -/
def idxOf? : List (String × String) → String → Option Nat
  | [], _ => none
  | p :: l, c => if p.1 == c then some 0 else (idxOf? l c).map (· + 1)

/-- The dtype recorded for the first column named `c`, if present. -/
def dtypeOf : List (String × String) → String → Option String
  | [], _ => none
  | p :: l, c => if p.1 == c then some p.2 else dtypeOf l c

/-- The cell values of the first column named `d`, top to bottom; `[]` if
there is no such column (only used where presence was checked). A ragged
row shorter than the column position reads as a missing value. -/
def colValuesByName (t : Table) (d : String) : List (Option Rat) :=
  match idxOf? t.cols d with
  | some i => t.rows.map (fun row => row.getD i none)
  | none => []

/-- Modelled from the spec: `Series.astype` of the external numeric-cast
collaborator.  The column is retagged with the requested dtype; cell
values are carried over (value-level conversion and its failure modes
belong to the external library, which the spec leaves opaque). -/
def astype (t : Table) (c d : String) : Table :=
  { t with cols := t.cols.map (fun p => if p.1 == c then (p.1, d) else p) }

/-- The loop of `cast`: `for col, dtype in dtype_spec.items(): if col in
df.columns: df[col] = df[col].astype(dtype)` (accessor.py lines 318-320). -/
def castApply : List (String × String) → Table → Table
  | [], t => t
  | (c, d) :: rest, t =>
      castApply rest (if (colNames t).contains c then astype t c d else t)

/-- The warning text emitted by `cast` for requested columns absent from
the table (accessor.py lines 313-316; quote characters of the Python
list repr are not modelled). -/
def castWarning (missing avail : List String) : String :=
  "Columns " ++ String.intercalate ", " missing ++
  " not found in DataFrame. Available columns: " ++
  String.intercalate ", " avail ++ ". These columns will be skipped."

/-- `EnrichAccessor.cast` (accessor.py lines 290-328): copy the table, warn
once about (and skip) requested columns that do not exist, convert each
present column to the requested dtype, and stamp provenance
`enrich_cast := true` and `enrich_dtypes := dtype_spec`. -/
def cast (dtype_spec : List (String × String)) (t : Table) :
    Except Err (List String × Table) :=
  let df := t
  let missing := (dtype_spec.map Prod.fst).filter
    (fun c => !((colNames df).contains c))
  let ws := if missing.isEmpty then [] else [castWarning missing (colNames df)]
  let df2 := castApply dtype_spec df
  .ok (ws, { df2 with
    attrs := setAttr (setAttr df2.attrs "enrich_cast" (.b true))
      "enrich_dtypes" (.m dtype_spec) })

/-- The `src` argument of `lookup`: a DataFrame, a string identifier, or
any other Python value. -/
inductive Src where
  | table (s : Table)
  | str (s : String)
  | other
  deriving Inhabited

/-- The `dst` argument of `lookup`: a single column name or a list. -/
inductive Dst where
  | one (s : String)
  | many (l : List String)
  deriving DecidableEq, Inhabited

/-- Normalisation `if isinstance(dst, str): dst = [dst]` (lines 224-225). -/
def dstList : Dst → List String
  | .one s => [s]
  | .many l => l

/-- Projection `src[dst]` (line 235): the destination columns of the
source, in request order, over the source's index. -/
def selectCols (s : Table) (ds : List String) : Table :=
  let idxs := ds.filterMap (fun d => idxOf? s.cols d)
  { cols := idxs.map (fun i => s.cols.getD i ("", "")),
    index := s.index,
    rows := s.rows.map (fun row => idxs.map (fun i => row.getD i none)),
    attrs := [] }

/-- `df.merge(src[dst], left_index=True, right_index=True, how="left",
suffixes=("", "_lookup"))` (line 235): a left join on row-index equality.
Each left row pairs with every matching right row, or with a row of
missing values when no right index matches; colliding right column names
take the `_lookup` suffix. -/
def leftJoinIndex (l r : Table) : Table :=
  let rcols := r.cols.map
    (fun p => if (colNames l).contains p.1 then (p.1 ++ "_lookup", p.2) else p)
  let pairs := (l.index.zip l.rows).flatMap (fun kr =>
    let ms := (r.index.zip r.rows).filter (fun kr2 => kr2.1 == kr.1)
    if ms.isEmpty then [(kr.1, kr.2 ++ List.replicate r.cols.length none)]
    else ms.map (fun kr2 => (kr.1, kr.2 ++ kr2.2)))
  { cols := l.cols ++ rcols,
    index := pairs.map Prod.fst,
    rows := pairs.map Prod.snd,
    attrs := l.attrs }

/-- `result[dst].isnull().sum().sum()` (line 239): total count of missing
cells across the columns named by `dst` in the merged result. -/
def lookupMissingCount (merged : Table) (ds : List String) : Nat :=
  (ds.map (fun d => (colValuesByName merged d).countP Option.isNone)).sum

/-- The error message of the missing-destination-column check (line 230). -/
def lookupColsMsg (missing avail : List String) : String :=
  "Columns " ++ String.intercalate ", " missing ++
  " not found in source DataFrame. Available columns: " ++
  String.intercalate ", " avail

/-- The error message of the `raise` missing-value policy (line 245). -/
def lookupFailMsg (cnt : Nat) (ds : List String) : String :=
  "Lookup failed: " ++ toString cnt ++ " missing values in " ++
  String.intercalate ", " ds

/-- The warning message of the `warn` missing-value policy (line 247). -/
def lookupWarnMsg (cnt : Nat) (ds : List String) : String :=
  "Lookup resulted in " ++ toString cnt ++ " missing values in " ++
  String.intercalate ", " ds

/-- The message of the not-implemented error for string sources
(lines 255-258; the quote characters around the identifier are kept as
plain parentheses). -/
def strSrcMsg (s : String) : String :=
  "String-based lookup sources (" ++ s ++
  ") require df-eval Engine integration. Use a DataFrame or custom resolver for now."

/-- The message of the type error for unsupported sources (line 260). -/
def srcTypeMsg : String := "src must be str or DataFrame"

/-- `EnrichAccessor.lookup` (accessor.py lines 174-267): copy the table;
with a resolver, return `resolver(df, src, dst)` unmodified; with a
DataFrame source, check the destination columns exist in it, left-join
on the index, count missing values in the destination columns and apply
the `on_missing` policy, then stamp `enrich_lookup := true`; a string
source always raises NotImplementedError; anything else a TypeError. -/
def lookup (src : Src) (dst : Dst)
    (resolver : Option (Table → Src → Dst → Table)) (on_missing : String)
    (t : Table) : Except Err (List String × Table) :=
  let df := t
  match resolver with
  | some f => .ok ([], f df src dst)
  | none =>
    match src with
    | .table s =>
        let ds := dstList dst
        let missingCols := ds.filter (fun c => !((colNames s).contains c))
        if !missingCols.isEmpty then
          .error (.valueError (lookupColsMsg missingCols (colNames s)))
        else
          let result := leftJoinIndex df (selectCols s ds)
          let cnt := lookupMissingCount result ds
          if cnt > 0 && on_missing == "raise" then
            .error (.valueError (lookupFailMsg cnt ds))
          else
            let ws := if cnt > 0 && on_missing == "warn" then
              [lookupWarnMsg cnt ds] else []
            .ok (ws, { result with
              attrs := setAttr result.attrs "enrich_lookup" (.b true) })
    | .str s => .error (.notImplementedError (strSrcMsg s))
    | .other => .error (.typeError srcTypeMsg)

/-- Modelled from the spec: the schema collaborator (pandera), which
"consumes a schema object ... exposing `validate(table) -> table |
structured error`".  We model a schema as a conformance predicate plus
the textual description `str(schema)`. -/
structure Schema where
  check : Table → Bool
  descr : String

/-- Modelled from the spec: `schema.validate(df, lazy=False)` returns the
validated table (a fresh reference per spec section 4.1) when it
conforms, and raises the schema library's structured error otherwise. -/
def schemaValidate (sch : Schema) (t : Table) : Except Err Table :=
  if sch.check t then .ok t else .error (.schemaError "SchemaError")

/-- `EnrichAccessor.validate` (accessor.py lines 23-60): run eager schema
validation, then stamp provenance `enrich_validated := true` and
`enrich_schema := str(schema)` on the validated table. -/
def validate (sch : Schema) (t : Table) : Except Err (List String × Table) :=
  match schemaValidate sch t with
  | .ok v => .ok ([], { v with
      attrs := setAttr (setAttr v.attrs "enrich_validated" (.b true))
        "enrich_schema" (.s sch.descr) })
  | .error e => .error e

/-- Arithmetic expressions over column names, the fragment of the pandas
`df.eval` expression language the facade feeds it. -/
inductive Expr where
  | var (n : String)
  | lit (q : Rat)
  | add (a b : Expr)
  | sub (a b : Expr)
  | mul (a b : Expr)
  | div (a b : Expr)
  deriving DecidableEq, Inhabited

/-- Tokens of the expression language. -/
inductive Tok where
  | ident (n : String)
  | num (q : Rat)
  | plus
  | minus
  | star
  | slash
  | lparen
  | rparen
  deriving DecidableEq, Inhabited

/-- Characters allowed inside an identifier. -/
def isIdentChar (c : Char) : Bool := c.isAlpha || c.isDigit || c == '_'

/-- Numeric value of a digit string. -/
def natOfDigits (l : List Char) : Nat :=
  l.foldl (fun n c => 10 * n + (c.toNat - 48)) 0

/-- Rational value of an integer part and a fractional digit part. -/
def ratOfDigits (ip fp : List Char) : Rat :=
  (natOfDigits ip : Rat) + (natOfDigits fp : Rat) / ((10 : Rat) ^ fp.length)

/-- Tokenizer; the fuel starts at the character count, which bounds every
recursive call, so running out of fuel is unreachable. -/
def tokenizeAux : Nat → List Char → Option (List Tok)
  | _, [] => some []
  | 0, _ :: _ => none
  | fuel + 1, c :: cs =>
    if c == ' ' then tokenizeAux fuel cs
    else if c == '+' then (tokenizeAux fuel cs).map (Tok.plus :: ·)
    else if c == '-' then (tokenizeAux fuel cs).map (Tok.minus :: ·)
    else if c == '*' then (tokenizeAux fuel cs).map (Tok.star :: ·)
    else if c == '/' then (tokenizeAux fuel cs).map (Tok.slash :: ·)
    else if c == '(' then (tokenizeAux fuel cs).map (Tok.lparen :: ·)
    else if c == ')' then (tokenizeAux fuel cs).map (Tok.rparen :: ·)
    else if c.isAlpha || c == '_' then
      let name := (c :: cs).takeWhile isIdentChar
      let rest := (c :: cs).dropWhile isIdentChar
      (tokenizeAux fuel rest).map (Tok.ident (String.mk name) :: ·)
    else if c.isDigit then
      let ip := (c :: cs).takeWhile Char.isDigit
      let r1 := (c :: cs).dropWhile Char.isDigit
      match r1 with
      | '.' :: r2 =>
        let fp := r2.takeWhile Char.isDigit
        let r3 := r2.dropWhile Char.isDigit
        if fp.isEmpty then none
        else (tokenizeAux fuel r3).map (Tok.num (ratOfDigits ip fp) :: ·)
      | _ => (tokenizeAux fuel r1).map (Tok.num (ratOfDigits ip []) :: ·)
    else none

/-- Tokenize an expression string. -/
def tokenize (s : String) : Option (List Tok) := tokenizeAux s.length s.data

mutual

/-- Parse a sum of terms (left associative `+`/`-`). -/
def parseE : Nat → List Tok → Option (Expr × List Tok)
  | 0, _ => none
  | f + 1, ts =>
    match parseT f ts with
    | some (e, ts1) => parseETail f e ts1
    | none => none

/-- Fold further `+ term` / `- term` onto the accumulated expression. -/
def parseETail : Nat → Expr → List Tok → Option (Expr × List Tok)
  | 0, _, _ => none
  | f + 1, acc, ts =>
    match ts with
    | Tok.plus :: ts1 =>
      match parseT f ts1 with
      | some (e, ts2) => parseETail f (.add acc e) ts2
      | none => none
    | Tok.minus :: ts1 =>
      match parseT f ts1 with
      | some (e, ts2) => parseETail f (.sub acc e) ts2
      | none => none
    | _ => some (acc, ts)

/-- Parse a product of factors (left associative `*`/`/`). -/
def parseT : Nat → List Tok → Option (Expr × List Tok)
  | 0, _ => none
  | f + 1, ts =>
    match parseF f ts with
    | some (e, ts1) => parseTTail f e ts1
    | none => none

/-- Fold further `* factor` / `/ factor` onto the accumulated expression. -/
def parseTTail : Nat → Expr → List Tok → Option (Expr × List Tok)
  | 0, _, _ => none
  | f + 1, acc, ts =>
    match ts with
    | Tok.star :: ts1 =>
      match parseF f ts1 with
      | some (e, ts2) => parseTTail f (.mul acc e) ts2
      | none => none
    | Tok.slash :: ts1 =>
      match parseF f ts1 with
      | some (e, ts2) => parseTTail f (.div acc e) ts2
      | none => none
    | _ => some (acc, ts)

/-- Parse an atom: identifier, numeric literal, or parenthesised sum. -/
def parseF : Nat → List Tok → Option (Expr × List Tok)
  | 0, _ => none
  | f + 1, ts =>
    match ts with
    | Tok.ident n :: ts1 => some (.var n, ts1)
    | Tok.num q :: ts1 => some (.lit q, ts1)
    | Tok.lparen :: ts1 =>
      match parseE f ts1 with
      | some (e, Tok.rparen :: ts2) => some (e, ts2)
      | _ => none
    | _ => none

end

/-- Parse a full expression string; every token must be consumed. -/
def parseExpr (s : String) : Option Expr :=
  match tokenize s with
  | some ts =>
    match parseE (2 * ts.length + 2) ts with
    | some (e, []) => some e
    | _ => none
  | none => none

/-- Elementwise addition on possibly-missing cells (missing propagates). -/
def cellAdd : Option Rat → Option Rat → Option Rat
  | some a, some b => some (a + b)
  | _, _ => none

/-- Elementwise subtraction on possibly-missing cells. -/
def cellSub : Option Rat → Option Rat → Option Rat
  | some a, some b => some (a - b)
  | _, _ => none

/-- Elementwise multiplication on possibly-missing cells. -/
def cellMul : Option Rat → Option Rat → Option Rat
  | some a, some b => some (a * b)
  | _, _ => none

/-- Elementwise division; division by zero is modelled as missing. -/
def cellDiv : Option Rat → Option Rat → Option Rat
  | some a, some b => if b == 0 then none else some (a / b)
  | _, _ => none

/-- Evaluate an expression on one row; the outer `Option` is evaluation
failure (an unknown column name), the inner is cell missingness. -/
def evalCell (cols : List (String × String)) (row : List (Option Rat)) :
    Expr → Option (Option Rat)
  | .var n => (idxOf? cols n).bind (fun i => row.get? i)
  | .lit q => some (some q)
  | .add a b =>
    match evalCell cols row a, evalCell cols row b with
    | some x, some y => some (cellAdd x y)
    | _, _ => none
  | .sub a b =>
    match evalCell cols row a, evalCell cols row b with
    | some x, some y => some (cellSub x y)
    | _, _ => none
  | .mul a b =>
    match evalCell cols row a, evalCell cols row b with
    | some x, some y => some (cellMul x y)
    | _, _ => none
  | .div a b =>
    match evalCell cols row a, evalCell cols row b with
    | some x, some y => some (cellDiv x y)
    | _, _ => none

/-- Evaluate an expression over every row of the table. -/
def evalRows (cols : List (String × String)) (e : Expr) :
    List (List (Option Rat)) → Option (List (Option Rat))
  | [] => some []
  | row :: rest =>
    match evalCell cols row e with
    | some v => (evalRows cols e rest).map (v :: ·)
    | none => none

/-- Modelled from the spec: the expression evaluator collaborator
(`df.eval`), which "given an expression string and a table's columns as
the variable namespace, evaluates standard arithmetic/logical
expressions and returns a column of results". -/
def evalExpr (t : Table) (s : String) : Option (List (Option Rat)) :=
  match parseExpr s with
  | some e => evalRows t.cols e t.rows
  | none => none

/-- Column assignment `df[col] = values`: overwrite the existing column in
place, or append a new one; the dtype of an assigned column is the
evaluator's inferred float dtype. -/
def setCol (t : Table) (c : String) (vals : List (Option Rat)) : Table :=
  match idxOf? t.cols c with
  | some i =>
    { t with cols := t.cols.set i (c, "float64"),
             rows := t.rows.zipWith (fun row v => row.set i v) vals }
  | none =>
    { t with cols := t.cols ++ [(c, "float64")],
             rows := t.rows.zipWith (fun row v => row ++ [v]) vals }

/-- The derivation-failure message of `derive` (line 110; the quote
characters of the Python f-string are not modelled). -/
def deriveFailMsg (c ex : String) : String :=
  "Failed to derive column " ++ c ++ " with expression " ++ ex

/-- The loop of `derive` (lines 106-110): each entry, in mapping order, is
evaluated against the table as amended by the preceding entries, and
assigned; an evaluation failure is re-raised as a ValueError naming the
column and expression. -/
def deriveApply : List (String × String) → Table → Except Err Table
  | [], t => .ok t
  | (c, ex) :: rest, t =>
    match evalExpr t ex with
    | some vals => deriveApply rest (setCol t c vals)
    | none => .error (.valueError (deriveFailMsg c ex))

/-- The `spec` argument of `derive`: a string, a mapping, or any other
Python value. -/
inductive SpecArg where
  | str (s : String)
  | dict (d : List (String × String))
  | other
  deriving Inhabited

/-- Result of the YAML collaborator's `safe_load`: a string-to-string
mapping, or any other successfully parsed YAML value. -/
inductive YamlVal where
  | ymap (d : List (String × String))
  | yother
  deriving DecidableEq, Inhabited

/-- The message of the invalid-specification error (line 98). -/
def invalidYamlMsg (s : String) : String := "Invalid YAML specification: " ++ s

/-- The message of the type error for unsupported spec arguments (line 102). -/
def specTypeMsg : String := "spec must be str or dict"

/-- Spec resolution of `derive` (lines 87-102), parametrised by the file
system `fs` (path to contents; `none` models FileNotFoundError/IOError)
and the YAML collaborator `yaml` (modelled from the spec: `safe_load`
returning a parsed value or a YAMLError).  For a string: try the file
first; a parse error on file contents propagates as the raw YAMLError;
if the file is absent or unreadable, parse the string itself, turning a
parse error into the invalid-specification ValueError.  A successfully
parsed non-mapping fails at `spec_dict.items()` with an AttributeError. -/
def resolveSpec (fs : String → Option String)
    (yaml : String → Except String YamlVal) :
    SpecArg → Except Err (List (String × String))
  | .str s =>
    match fs s with
    | some contents =>
      match yaml contents with
      | .ok (.ymap d) => .ok d
      | .ok .yother => .error (.attributeError "object has no attribute items")
      | .error m => .error (.yamlError m)
    | none =>
      match yaml s with
      | .ok (.ymap d) => .ok d
      | .ok .yother => .error (.attributeError "object has no attribute items")
      | .error _ => .error (.valueError (invalidYamlMsg s))
  | .dict d => .ok d
  | .other => .error (.typeError specTypeMsg)

/-- `EnrichAccessor.derive` (accessor.py lines 62-118): copy the table,
resolve the spec to a mapping, apply it entry by entry in mapping order,
and stamp provenance `enrich_derived := true` and
`enrich_derivations := spec_dict` (the resolved mapping). -/
def derive (fs : String → Option String)
    (yaml : String → Except String YamlVal) (spec : SpecArg) (t : Table) :
    Except Err (List String × Table) :=
  match resolveSpec fs yaml spec with
  | .ok d =>
    match deriveApply d t with
    | .ok t2 => .ok ([], { t2 with
        attrs := setAttr (setAttr t2.attrs "enrich_derived" (.b true))
          "enrich_derivations" (.m d) })
    | .error e => .error e
  | .error e => .error e

/-- Modelled from the spec: per-column descriptive statistics, the
profiling fallback's "descriptive statistics" (`df.describe()`):
non-missing count, mean, minimum and maximum of each column. -/
structure Describe where
  count : Nat
  mean : Option Rat
  dmin : Option Rat
  dmax : Option Rat
  deriving DecidableEq, Inhabited

/-- The values of the basic-statistics mapping returned by the profiling
fallback. -/
inductive StatVal where
  | shape (r c : Nat)
  | dtypes (l : List (String × String))
  | missing (l : List (String × Nat))
  | describe (l : List (String × Describe))
  deriving DecidableEq, Inhabited

/-- The non-missing cells of the column at position `i`. -/
def presentAt (t : Table) (i : Nat) : List Rat :=
  t.rows.filterMap (fun row => row.getD i none)

/-- Descriptive statistics for the column at position `i`. -/
def describeAt (t : Table) (i : Nat) : Describe :=
  let vs := presentAt t i
  { count := vs.length,
    mean := if vs.isEmpty then none else some (vs.sum / (vs.length : Rat)),
    dmin := vs.foldr (fun a m => some (match m with
      | some b => min a b
      | none => a)) none,
    dmax := vs.foldr (fun a m => some (match m with
      | some b => max a b
      | none => a)) none }

/-- `EnrichAccessor._basic_profile` (accessor.py lines 165-172): the
fallback statistics mapping with keys shape, dtypes, missing, describe. -/
def basicProfile (t : Table) : List (String × StatVal) :=
  [("shape", .shape t.rows.length t.cols.length),
   ("dtypes", .dtypes t.cols),
   ("missing", .missing ((List.range t.cols.length).map (fun i =>
     ((t.cols.getD i ("", "")).1,
      t.rows.countP (fun row => (row.getD i none).isNone))))),
   ("describe", .describe ((List.range t.cols.length).map (fun i =>
     ((t.cols.getD i ("", "")).1, describeAt t i))))]

/-- Result of `profile`: an external report object (recording the
minimal/lazy flags and passthrough options it was built with), or the
fallback statistics mapping. -/
inductive ProfileResult where
  | report (minimal lazy : Bool) (kwargs : List (String × String))
  | stats (entries : List (String × StatVal))
  deriving DecidableEq, Inhabited

/-- The message of the unsupported-engine error (line 163; the quote
characters around ydata are not modelled). -/
def unsupportedEngineMsg (engine : String) : String :=
  "Unsupported profiling engine: " ++ engine ++ ". Supported: ydata"

/-- The ImportWarning text of the profiling fallback (lines 156-159). -/
def importWarnMsg : String :=
  "ydata-profiling not installed. Install with: pip install ydata-profiling"

/-- `EnrichAccessor.profile` (accessor.py lines 120-163), parametrised by
whether the external profiling library imports (`avail`; modelled from
the spec: "absence is a detectable, recoverable condition").  Only the
engine "ydata" is recognized; with the library available a report is
built (minimal and lazy when `lazy` is set), otherwise an ImportWarning
is emitted and the basic statistics mapping is returned. -/
def profile (avail : Bool) (engine : String) (lazy : Bool)
    (kwargs : List (String × String)) (t : Table) :
    Except Err (List String × ProfileResult) :=
  if engine == "ydata" then
    if avail then
      .ok ([], if lazy then .report true true kwargs
               else .report false false kwargs)
    else
      .ok ([importWarnMsg], .stats (basicProfile t))
  else
    .error (.valueError (unsupportedEngineMsg engine))

/-
  Heap-level model for the frame claim.  References to DataFrame objects
  are positions in a heap; `self._obj` is a reference the caller holds.
  `df = self._obj.copy()` allocates a fresh object; every subsequent
  write in the source (`df[col] = ...`, `df.attrs[...] = ...`) targets
  only that fresh object, so a whole operation's heap effect is: read
  the caller's object, allocate the copy, overwrite the copy with the
  transformed value, and return the copy's reference.
-/

/-- A heap of table objects; a reference is a position. -/
abbrev Heap : Type := List Table

/-- Allocate a fresh object holding `t`; returns the heap and the fresh
reference. -/
def allocT (h : Heap) (t : Table) : Heap × Nat := (h ++ [t], h.length)

/-- Overwrite the object at reference `r`. -/
def hset (h : Heap) (r : Nat) (t : Table) : Heap := h.set r t

/-- Read the object at reference `r`. -/
def hget (h : Heap) (r : Nat) : Table := h.getD r default

/-- Heap-level behaviour shared by `derive`, `cast` and `lookup`
(accessor.py lines 84, 213, 308): copy `self._obj`, run the operation's
body — whose writes all target the copy — and return the copy's
reference; on an exception the allocated copy is simply abandoned. -/
def runOnCopy (f : Table → Except Err (List String × Table)) (h : Heap)
    (r : Nat) : Heap × Except Err (List String × Nat) :=
  let t := hget h r
  let p := allocT h t
  match f t with
  | .ok (ws, t2) => (hset p.1 p.2 t2, .ok (ws, p.2))
  | .error e => (p.1, .error e)

/-- Heap-level `validate` (lines 52-60): no explicit copy appears in the
source; the schema collaborator returns a fresh reference (modelled from
the spec, sections 4.1 and 6), and the provenance writes target it. -/
def validateH (sch : Schema) (h : Heap) (r : Nat) :
    Heap × Except Err (List String × Nat) :=
  let t := hget h r
  match schemaValidate sch t with
  | .ok v =>
    let p := allocT h v
    let stamped := { v with
      attrs := setAttr (setAttr v.attrs "enrich_validated" (.b true))
        "enrich_schema" (.s sch.descr) }
    (hset p.1 p.2 stamped, .ok ([], p.2))
  | .error _ => (h, .error (.schemaError "SchemaError"))

/-- Heap-level `derive` (line 84: `df = self._obj.copy()`). -/
def deriveH (fs : String → Option String)
    (yaml : String → Except String YamlVal) (spec : SpecArg) :
    Heap → Nat → Heap × Except Err (List String × Nat) :=
  runOnCopy (derive fs yaml spec)

/-- Heap-level `cast` (line 308: `df = self._obj.copy()`). -/
def castH (dtype_spec : List (String × String)) :
    Heap → Nat → Heap × Except Err (List String × Nat) :=
  runOnCopy (cast dtype_spec)

/-- Heap-level `lookup` (line 213: `df = self._obj.copy()`). -/
def lookupH (src : Src) (dst : Dst)
    (resolver : Option (Table → Src → Dst → Table)) (on_missing : String) :
    Heap → Nat → Heap × Except Err (List String × Nat) :=
  runOnCopy (lookup src dst resolver on_missing)

/-- Heap-level `profile`: the operation only reads `self._obj` (lines
150-152, 165-172), so the heap is untouched. -/
def profileH (avail : Bool) (engine : String) (lazy : Bool)
    (kwargs : List (String × String)) (h : Heap) (r : Nat) :
    Heap × Except Err (List String × ProfileResult) :=
  (h, profile avail engine lazy kwargs (hget h r))

/-
  Helper lemmas about the attrs mapping.
-/

theorem getAttr_map_replace (k : String) (v : AttrVal) :
    ∀ l : List (String × AttrVal),
      getAttr (l.map (fun p => if p.1 == k then (k, v) else p)) k =
        if l.any (fun p => p.1 == k) then some v else none := by
  intro l
  induction l with
  | nil => simp [getAttr]
  | cons p rest ih =>
    by_cases hp : p.1 = k
    · simp [getAttr, hp]
    · have hb : (p.1 == k) = false := beq_eq_false_iff_ne.mpr hp
      simp only [beq_iff_eq] at ih
      simp only [List.map_cons, List.any_cons, hb, Bool.false_or, beq_iff_eq,
        hp, if_false, getAttr, Bool.false_eq_true]
      simpa using ih

theorem getAttr_append_new (k : String) (v : AttrVal) :
    ∀ l : List (String × AttrVal), l.any (fun p => p.1 == k) = false →
      getAttr (l ++ [(k, v)]) k = some v := by
  intro l
  induction l with
  | nil => simp [getAttr]
  | cons p rest ih =>
    intro h
    rw [List.any_cons, Bool.or_eq_false_iff] at h
    simp only [List.cons_append, getAttr, h.1, if_false, Bool.false_eq_true]
    exact ih h.2

/-- Reading back the key just set by `setAttr`. -/
theorem getAttr_setAttr_self (l : List (String × AttrVal)) (k : String)
    (v : AttrVal) : getAttr (setAttr l k v) k = some v := by
  unfold setAttr
  by_cases h : l.any (fun p => p.1 == k)
  · simp only [h, if_true]
    rw [getAttr_map_replace k v l, h, if_pos rfl]
  · rw [if_neg h]
    exact getAttr_append_new k v l (Bool.eq_false_iff.mpr h)

theorem getAttr_map_replace_ne (k k2 : String) (v : AttrVal) (hne : k2 ≠ k) :
    ∀ l : List (String × AttrVal),
      getAttr (l.map (fun p => if p.1 == k then (k, v) else p)) k2 =
        getAttr l k2 := by
  intro l
  induction l with
  | nil => simp [getAttr]
  | cons p rest ih =>
    by_cases hp : p.1 = k
    · simp only [beq_iff_eq] at ih
      simp [getAttr, hp, Ne.symm hne, ih]
    · by_cases hq : p.1 = k2
      · simp [getAttr, hp, hq, hne]
      · simp only [beq_iff_eq] at ih
        simp [getAttr, hp, hq, ih]

theorem getAttr_append_ne (k k2 : String) (v : AttrVal) (hne : k2 ≠ k) :
    ∀ l : List (String × AttrVal),
      getAttr (l ++ [(k, v)]) k2 = getAttr l k2 := by
  intro l
  induction l with
  | nil => simp [getAttr, Ne.symm hne]
  | cons p rest ih =>
    by_cases hq : p.1 = k2 <;> simp [getAttr, hq, ih]

/-- Setting one key leaves every other key of the attrs mapping intact. -/
theorem getAttr_setAttr_ne (l : List (String × AttrVal)) (k k2 : String)
    (v : AttrVal) (hne : k2 ≠ k) :
    getAttr (setAttr l k v) k2 = getAttr l k2 := by
  unfold setAttr
  by_cases h : l.any (fun p => p.1 == k)
  · rw [if_pos h]; exact getAttr_map_replace_ne k k2 v hne l
  · rw [if_neg h]; exact getAttr_append_ne k k2 v hne l

/-
  Claim theorems.
-/

/-- C7: with no resolver, a string lookup source always fails with a
not-implemented error whose message names the identifier, regardless of
the on_missing policy and destination columns; a source that is neither
a string nor a table fails with a type error. -/
theorem claim_C7 (s : String) (dst : Dst) (pol : String) (t : Table) :
    lookup (.str s) dst none pol t =
      .error (.notImplementedError (strSrcMsg s)) ∧
    (∃ a b : String, strSrcMsg s = a ++ s ++ b) ∧
    lookup .other dst none pol t = .error (.typeError srcTypeMsg) := by
  refine ⟨rfl, ⟨"String-based lookup sources (",
    ") require df-eval Engine integration. Use a DataFrame or custom resolver for now.",
    rfl⟩, rfl⟩

/-- C8: with a resolver supplied, lookup passes the copied table, the
source and the destination spec to the resolver and returns its result
unmodified — no validation, join, missing-value policy or provenance
stamping happens in this branch. -/
theorem claim_C8 (f : Table → Src → Dst → Table) (src : Src) (dst : Dst)
    (pol : String) (t : Table) :
    lookup src dst (some f) pol t = .ok ([], f t src dst) := rfl

/-- C10: derive and cast with an empty mapping succeed with no error and
no warning, leave the column data untouched, and still attach the
provenance flag together with the empty recorded mapping. -/
theorem claim_C10 (fs : String → Option String)
    (yaml : String → Except String YamlVal) (t : Table) :
    derive fs yaml (.dict []) t = .ok ([], { t with
      attrs := setAttr (setAttr t.attrs "enrich_derived" (.b true))
        "enrich_derivations" (.m []) }) ∧
    getAttr (setAttr (setAttr t.attrs "enrich_derived" (.b true))
        "enrich_derivations" (.m [])) "enrich_derived" = some (.b true) ∧
    getAttr (setAttr (setAttr t.attrs "enrich_derived" (.b true))
        "enrich_derivations" (.m [])) "enrich_derivations" = some (.m []) ∧
    cast [] t = .ok ([], { t with
      attrs := setAttr (setAttr t.attrs "enrich_cast" (.b true))
        "enrich_dtypes" (.m []) }) ∧
    getAttr (setAttr (setAttr t.attrs "enrich_cast" (.b true))
        "enrich_dtypes" (.m [])) "enrich_cast" = some (.b true) ∧
    getAttr (setAttr (setAttr t.attrs "enrich_cast" (.b true))
        "enrich_dtypes" (.m [])) "enrich_dtypes" = some (.m []) := by
  refine ⟨rfl, ?_, getAttr_setAttr_self _ _ _, rfl, ?_, getAttr_setAttr_self _ _ _⟩
  · rw [getAttr_setAttr_ne _ _ _ _ (by decide)]
    exact getAttr_setAttr_self _ _ _
  · rw [getAttr_setAttr_ne _ _ _ _ (by decide)]
    exact getAttr_setAttr_self _ _ _

/-- C4: derive resolves a string spec by first trying it as a file path
(behaving then exactly as with the parsed mapping), falling back to
parsing the string itself when the file is absent, raising the
invalid-specification ValueError when that parse also fails, and raising
a TypeError for a spec that is neither a string nor a mapping. -/
theorem claim_C4 (fs : String → Option String)
    (yaml : String → Except String YamlVal) (s c : String)
    (d : List (String × String)) (t : Table) :
    (fs s = some c → yaml c = .ok (.ymap d) →
      derive fs yaml (.str s) t = derive fs yaml (.dict d) t) ∧
    (fs s = none → yaml s = .ok (.ymap d) →
      derive fs yaml (.str s) t = derive fs yaml (.dict d) t) ∧
    (∀ m, fs s = none → yaml s = .error m →
      derive fs yaml (.str s) t = .error (.valueError (invalidYamlMsg s))) ∧
    derive fs yaml .other t = .error (.typeError specTypeMsg) := by
  refine ⟨fun h1 h2 => ?_, fun h1 h2 => ?_, fun m h1 h2 => ?_, rfl⟩
  · simp [derive, resolveSpec, h1, h2]
  · simp [derive, resolveSpec, h1, h2]
  · simp [derive, resolveSpec, h1, h2]

/-- Witness for C4 at concrete file systems, YAML parsers and inputs. -/
theorem claim_C4_witness :
    (derive (fun p => if p = "spec.yaml" then some "c: a + b" else none)
        (fun s => if s = "c: a + b" then .ok (.ymap [("c", "a + b")])
                  else .error "bad") (.str "spec.yaml")
        { cols := [], index := [], rows := [], attrs := [] } =
      derive (fun p => if p = "spec.yaml" then some "c: a + b" else none)
        (fun s => if s = "c: a + b" then .ok (.ymap [("c", "a + b")])
                  else .error "bad") (.dict [("c", "a + b")])
        { cols := [], index := [], rows := [], attrs := [] }) ∧
    (derive (fun _ => none)
        (fun s => if s = "c: a + b" then .ok (.ymap [("c", "a + b")])
                  else .error "bad") (.str "c: a + b")
        { cols := [], index := [], rows := [], attrs := [] } =
      derive (fun _ => none)
        (fun s => if s = "c: a + b" then .ok (.ymap [("c", "a + b")])
                  else .error "bad") (.dict [("c", "a + b")])
        { cols := [], index := [], rows := [], attrs := [] }) ∧
    (derive (fun _ => none) (fun _ => .error "bad") (.str "::bad yaml")
        { cols := [], index := [], rows := [], attrs := [] } =
      .error (.valueError (invalidYamlMsg "::bad yaml"))) := by
  refine ⟨(claim_C4 _ _ "spec.yaml" "c: a + b" [("c", "a + b")] _).1
      (by decide) (by decide),
    (claim_C4 _ _ "c: a + b" "" [("c", "a + b")] _).2.1 rfl (by decide),
    (claim_C4 _ _ "::bad yaml" "" [] _).2.2.1 "bad" rfl rfl⟩

/-- C9: any engine other than ydata makes profile raise the
unsupported-engine ValueError naming the selector and the supported set,
regardless of the laziness flag and passthrough options; with engine
ydata and the profiling library unavailable, profile returns the basic
statistics mapping whose keys are exactly shape, dtypes, missing,
describe. -/
theorem claim_C9 (engine : String) (h : engine ≠ "ydata") (avail lz : Bool)
    (kwargs : List (String × String)) (t : Table) :
    profile avail engine lz kwargs t =
      .error (.valueError (unsupportedEngineMsg engine)) ∧
    (∃ a b : String, unsupportedEngineMsg engine = a ++ engine ++ b) ∧
    (∃ a b : String, unsupportedEngineMsg engine = a ++ "ydata" ++ b) ∧
    profile false "ydata" lz kwargs t =
      .ok ([importWarnMsg], .stats (basicProfile t)) ∧
    (basicProfile t).map Prod.fst = ["shape", "dtypes", "missing", "describe"] := by
  refine ⟨?_, ⟨"Unsupported profiling engine: ", ". Supported: ydata", rfl⟩,
    ⟨"Unsupported profiling engine: " ++ engine ++ ". Supported: ", "", ?_⟩,
    rfl, rfl⟩
  · simp [profile, h]
  · rw [String.append_empty]
    unfold unsupportedEngineMsg
    rw [String.append_assoc, String.append_assoc]
    rfl

/-- Witness for C9 at the engine selector bogus. -/
theorem claim_C9_witness :
    profile true "bogus" false []
        { cols := [], index := [], rows := [], attrs := [] } =
      .error (.valueError (unsupportedEngineMsg "bogus")) :=
  (claim_C9 "bogus" (by decide) true false [] _).1

/-- Column assignment does not touch the attrs metadata. -/
theorem setCol_attrs (t : Table) (c : String) (vals : List (Option Rat)) :
    (setCol t c vals).attrs = t.attrs := by
  unfold setCol
  cases idxOf? t.cols c <;> rfl

/-- The derivation loop only assigns columns; attrs are carried over. -/
theorem deriveApply_attrs :
    ∀ (d : List (String × String)) (t t2 : Table),
      deriveApply d t = .ok t2 → t2.attrs = t.attrs := by
  intro d
  induction d with
  | nil =>
    intro t t2 h
    cases h
    rfl
  | cons q rest ih =>
    intro t t2 h
    unfold deriveApply at h
    cases hev : evalExpr t q.2 with
    | some vals =>
      rw [hev] at h
      rw [ih _ _ h, setCol_attrs]
    | none => rw [hev] at h; cases h

/-- Retagging a column dtype does not touch the attrs metadata. -/
theorem astype_attrs (t : Table) (c d : String) :
    (astype t c d).attrs = t.attrs := rfl

/-- The cast loop only retags columns; attrs are carried over. -/
theorem castApply_attrs :
    ∀ (spec : List (String × String)) (t : Table),
      (castApply spec t).attrs = t.attrs := by
  intro spec
  induction spec with
  | nil => intro t; rfl
  | cons q rest ih =>
    intro t
    unfold castApply
    rw [ih]
    by_cases hc : q.1 ∈ colNames t <;> simp [hc, astype_attrs]

/-- C2: chaining validate, derive and cast accumulates provenance: the
final table's metadata contains the validated, derived and cast flags
(with schema text and both recorded mappings) simultaneously, and each
operation preserves every metadata key other than its own two. -/
theorem claim_C2 (sch : Schema) (fs : String → Option String)
    (yaml : String → Except String YamlVal) (d cspec : List (String × String))
    (t t1 t2 t3 : Table) (w1 w2 w3 : List String)
    (h1 : validate sch t = .ok (w1, t1))
    (h2 : derive fs yaml (.dict d) t1 = .ok (w2, t2))
    (h3 : cast cspec t2 = .ok (w3, t3)) :
    getAttr t3.attrs "enrich_validated" = some (.b true) ∧
    getAttr t3.attrs "enrich_schema" = some (.s sch.descr) ∧
    getAttr t3.attrs "enrich_derived" = some (.b true) ∧
    getAttr t3.attrs "enrich_derivations" = some (.m d) ∧
    getAttr t3.attrs "enrich_cast" = some (.b true) ∧
    getAttr t3.attrs "enrich_dtypes" = some (.m cspec) ∧
    (∀ k, k ≠ "enrich_derived" → k ≠ "enrich_derivations" →
      getAttr t2.attrs k = getAttr t1.attrs k) ∧
    (∀ k, k ≠ "enrich_cast" → k ≠ "enrich_dtypes" →
      getAttr t3.attrs k = getAttr t2.attrs k) := by
  unfold validate schemaValidate at h1
  by_cases hc : sch.check t
  swap
  · rw [if_neg hc] at h1; cases h1
  rw [if_pos hc] at h1
  obtain ⟨hw1, ht1⟩ := Prod.mk.inj (Except.ok.inj h1)
  simp only [derive, resolveSpec] at h2
  cases hda : deriveApply d t1 with
  | error e => rw [hda] at h2; cases h2
  | ok tmid =>
    rw [hda] at h2
    obtain ⟨hw2, ht2⟩ := Prod.mk.inj (Except.ok.inj h2)
    unfold cast at h3
    obtain ⟨hw3, ht3⟩ := Prod.mk.inj (Except.ok.inj h3)
    have hmid : tmid.attrs = t1.attrs := deriveApply_attrs d t1 tmid hda
    have ha3 : t3.attrs =
        setAttr (setAttr (castApply cspec t2).attrs "enrich_cast" (.b true))
          "enrich_dtypes" (.m cspec) := by rw [← ht3]
    have ha2 : t2.attrs =
        setAttr (setAttr t1.attrs "enrich_derived" (.b true))
          "enrich_derivations" (.m d) := by rw [← ht2, ← hmid]
    have ha1 : t1.attrs =
        setAttr (setAttr t.attrs "enrich_validated" (.b true))
          "enrich_schema" (.s sch.descr) := by rw [← ht1]
    refine ⟨?_, ?_, ?_, ?_, ?_, ?_, ?_, ?_⟩
    · rw [ha3, castApply_attrs, ha2, ha1]
      rw [getAttr_setAttr_ne _ _ _ _ (by decide),
        getAttr_setAttr_ne _ _ _ _ (by decide),
        getAttr_setAttr_ne _ _ _ _ (by decide),
        getAttr_setAttr_ne _ _ _ _ (by decide),
        getAttr_setAttr_ne _ _ _ _ (by decide)]
      exact getAttr_setAttr_self _ _ _
    · rw [ha3, castApply_attrs, ha2, ha1]
      rw [getAttr_setAttr_ne _ _ _ _ (by decide),
        getAttr_setAttr_ne _ _ _ _ (by decide),
        getAttr_setAttr_ne _ _ _ _ (by decide),
        getAttr_setAttr_ne _ _ _ _ (by decide)]
      exact getAttr_setAttr_self _ _ _
    · rw [ha3, castApply_attrs, ha2]
      rw [getAttr_setAttr_ne _ _ _ _ (by decide),
        getAttr_setAttr_ne _ _ _ _ (by decide),
        getAttr_setAttr_ne _ _ _ _ (by decide)]
      exact getAttr_setAttr_self _ _ _
    · rw [ha3, castApply_attrs, ha2]
      rw [getAttr_setAttr_ne _ _ _ _ (by decide),
        getAttr_setAttr_ne _ _ _ _ (by decide)]
      exact getAttr_setAttr_self _ _ _
    · rw [ha3, castApply_attrs]
      rw [getAttr_setAttr_ne _ _ _ _ (by decide)]
      exact getAttr_setAttr_self _ _ _
    · rw [ha3, castApply_attrs]
      exact getAttr_setAttr_self _ _ _
    · intro k hk1 hk2
      rw [ha2, getAttr_setAttr_ne _ _ _ _ hk2, getAttr_setAttr_ne _ _ _ _ hk1]
    · intro k hk1 hk2
      rw [ha3, castApply_attrs, getAttr_setAttr_ne _ _ _ _ hk2,
        getAttr_setAttr_ne _ _ _ _ hk1]

/-- Retagging a dtype does not change the column names. -/
theorem astype_colNames (t : Table) (c d : String) :
    colNames (astype t c d) = colNames t := by
  show (t.cols.map fun p => if p.1 == c then (p.1, d) else p).map Prod.fst =
    t.cols.map Prod.fst
  rw [List.map_map]
  congr 1
  funext p
  by_cases hp : p.1 = c <;> simp [hp]

/-- The cast loop does not change the column names. -/
theorem castApply_colNames :
    ∀ (spec : List (String × String)) (t : Table),
      colNames (castApply spec t) = colNames t := by
  intro spec
  induction spec with
  | nil => intro t; rfl
  | cons q rest ih =>
    intro t
    unfold castApply
    rw [ih]
    by_cases hc : q.1 ∈ colNames t <;> simp [hc, astype_colNames]

theorem dtypeOf_astype_self (c d : String) :
    ∀ cols : List (String × String),
      dtypeOf (cols.map (fun p => if p.1 == c then (p.1, d) else p)) c =
        if (cols.map Prod.fst).contains c then some d else none := by
  intro cols
  induction cols with
  | nil => simp [dtypeOf]
  | cons p rest ih =>
    by_cases hp : p.1 = c
    · simp [dtypeOf, hp]
    · have hb : (p.1 == c) = false := beq_eq_false_iff_ne.mpr hp
      have hb2 : (c == p.1) = false := beq_eq_false_iff_ne.mpr (Ne.symm hp)
      simp only [beq_iff_eq] at ih
      simp only [List.map_cons, List.map_map, beq_iff_eq, hp, if_false,
        dtypeOf, List.contains_cons, hb, hb2, Bool.false_or,
        Bool.false_eq_true]
      simpa using ih

theorem dtypeOf_astype_ne (c c2 d : String) (hne : c2 ≠ c) :
    ∀ cols : List (String × String),
      dtypeOf (cols.map (fun p => if p.1 == c then (p.1, d) else p)) c2 =
        dtypeOf cols c2 := by
  intro cols
  induction cols with
  | nil => simp [dtypeOf]
  | cons p rest ih =>
    by_cases hp : p.1 = c
    · simp only [beq_iff_eq] at ih
      simp [dtypeOf, hp, Ne.symm hne, ih]
    · by_cases hq : p.1 = c2
      · simp [dtypeOf, hp, hq, hne]
      · simp only [beq_iff_eq] at ih
        simp [dtypeOf, hp, hq, ih]

/-- Entries of the cast loop whose key differs from `c` leave the dtype
recorded for `c` intact. -/
theorem dtypeOf_castApply_skip (c : String) :
    ∀ (spec : List (String × String)) (t : Table),
      (∀ q ∈ spec, q.1 ≠ c) →
      dtypeOf (castApply spec t).cols c = dtypeOf t.cols c := by
  intro spec
  induction spec with
  | nil => intro t _; rfl
  | cons q rest ih =>
    intro t h
    unfold castApply
    rw [ih _ (fun p hp => h p (List.mem_cons_of_mem q hp))]
    by_cases hc : (colNames t).contains q.1
    · rw [if_pos hc]
      exact dtypeOf_astype_ne q.1 c q.2 (Ne.symm (h q (List.mem_cons_self q rest))) t.cols
    · rw [if_neg hc]

/-- With distinct keys, a present entry of the cast spec ends up recorded
as that column's dtype after the whole loop. -/
theorem dtypeOf_castApply_mem :
    ∀ (spec : List (String × String)) (t : Table) (c d : String),
      (spec.map Prod.fst).Nodup → (c, d) ∈ spec →
      (colNames t).contains c = true →
      dtypeOf (castApply spec t).cols c = some d := by
  intro spec
  induction spec with
  | nil => intro t c d _ hmem; cases hmem
  | cons q rest ih =>
    intro t c d hnd hmem hcont
    have hnd2 : (q.1 :: rest.map Prod.fst).Nodup := by
      rw [List.map_cons] at hnd; exact hnd
    rcases List.mem_cons.mp hmem with hq | hrest
    · subst hq
      have hkeys : ∀ p ∈ rest, p.1 ≠ c := by
        intro p hp hpc
        have hni := (List.nodup_cons.mp hnd2).1
        have hm2 : p.1 ∈ rest.map Prod.fst := List.mem_map_of_mem Prod.fst hp
        rw [hpc] at hm2
        exact hni hm2
      unfold castApply
      rw [if_pos hcont, dtypeOf_castApply_skip c rest (astype t c d) hkeys]
      have h2 := dtypeOf_astype_self c d t.cols
      rw [show (astype t c d).cols =
          t.cols.map (fun p => if p.1 == c then (p.1, d) else p) from rfl, h2]
      rw [show (t.cols.map Prod.fst) = colNames t from rfl, hcont]
      rfl
    · unfold castApply
      apply ih _ c d (List.nodup_cons.mp hnd2).2 hrest
      by_cases hc : (colNames t).contains q.1
      · rw [if_pos hc, astype_colNames]
        exact hcont
      · rw [if_neg hc]
        exact hcont

/-- C5: cast with a mapping whose keys include absent columns emits
exactly one warning listing the missing names and the available columns
(and none when nothing is missing), skips those entries without error
and without fabricating columns, converts every present column to its
requested dtype, and stamps provenance cast and the originally requested
mapping including the skipped entries. -/
theorem claim_C5 (spec : List (String × String)) (t : Table)
    (hnd : (spec.map Prod.fst).Nodup) :
    cast spec t = .ok
      ((if (((spec.map Prod.fst).filter
            (fun c => !((colNames t).contains c))).isEmpty) then []
        else [castWarning ((spec.map Prod.fst).filter
            (fun c => !((colNames t).contains c))) (colNames t)]),
       { castApply spec t with
         attrs := setAttr (setAttr (castApply spec t).attrs
           "enrich_cast" (.b true)) "enrich_dtypes" (.m spec) }) ∧
    colNames (castApply spec t) = colNames t ∧
    (∀ c d, (c, d) ∈ spec → (colNames t).contains c = true →
      dtypeOf (castApply spec t).cols c = some d) ∧
    getAttr (setAttr (setAttr (castApply spec t).attrs
      "enrich_cast" (.b true)) "enrich_dtypes" (.m spec))
      "enrich_cast" = some (.b true) ∧
    getAttr (setAttr (setAttr (castApply spec t).attrs
      "enrich_cast" (.b true)) "enrich_dtypes" (.m spec))
      "enrich_dtypes" = some (.m spec) := by
  refine ⟨rfl, castApply_colNames spec t,
    fun c d hm hc => dtypeOf_castApply_mem spec t c d hnd hm hc, ?_,
    getAttr_setAttr_self _ _ _⟩
  rw [getAttr_setAttr_ne _ _ _ _ (by decide)]
  exact getAttr_setAttr_self _ _ _

/-- Witness for C5: casting a to int64 and a missing column on a table
holding only a warns once naming missing, and converts a. -/
theorem claim_C5_witness :
    cast [("a", "int64"), ("missing", "float32")]
        ⟨[("a", "float64")], [0], [[some 1]], []⟩ = .ok
      ([castWarning ["missing"] ["a"]],
       { castApply [("a", "int64"), ("missing", "float32")]
           ⟨[("a", "float64")], [0], [[some 1]], []⟩ with
         attrs := setAttr (setAttr (castApply
             [("a", "int64"), ("missing", "float32")]
             ⟨[("a", "float64")], [0], [[some 1]], []⟩).attrs
           "enrich_cast" (.b true)) "enrich_dtypes"
           (.m [("a", "int64"), ("missing", "float32")]) }) ∧
    dtypeOf (castApply [("a", "int64"), ("missing", "float32")]
        ⟨[("a", "float64")], [0], [[some 1]], []⟩).cols "a" = some "int64" := by
  have h := claim_C5 [("a", "int64"), ("missing", "float32")]
    ⟨[("a", "float64")], [0], [[some 1]], []⟩ (by decide)
  exact ⟨by rw [h.1]; decide, h.2.2.1 "a" "int64" (by decide) (by decide)⟩

/-- Reduction of a table-source lookup without resolver once every
destination column is known to exist in the source. -/
theorem lookup_table_reduce (t s : Table) (dst : Dst) (pol : String)
    (hnil : (dstList dst).filter (fun c => !((colNames s).contains c)) = []) :
    lookup (.table s) dst none pol t =
      (if lookupMissingCount (leftJoinIndex t (selectCols s (dstList dst)))
            (dstList dst) > 0 && pol == "raise" then
        .error (.valueError (lookupFailMsg
          (lookupMissingCount (leftJoinIndex t (selectCols s (dstList dst)))
            (dstList dst)) (dstList dst)))
      else
        .ok ((if lookupMissingCount (leftJoinIndex t (selectCols s (dstList dst)))
                (dstList dst) > 0 && pol == "warn" then
            [lookupWarnMsg (lookupMissingCount
              (leftJoinIndex t (selectCols s (dstList dst))) (dstList dst))
              (dstList dst)] else []),
          { leftJoinIndex t (selectCols s (dstList dst)) with
            attrs := setAttr
              (leftJoinIndex t (selectCols s (dstList dst))).attrs
              "enrich_lookup" (.b true) })) := by
  simp only [lookup]
  rw [hnil]
  simp

/-- C6: for a table-source lookup without resolver whose destination
columns all exist in the source, the count of missing values after the
left join drives the policy: raise errors with the count in the message,
warn warns with the count, ignore continues silently; a zero count never
errors or warns under any policy, and the success result carries
provenance lookup set to true. -/
theorem claim_C6 (t s : Table) (dst : Dst)
    (hall : ∀ c ∈ dstList dst, (colNames s).contains c = true) :
    (lookupMissingCount (leftJoinIndex t (selectCols s (dstList dst)))
        (dstList dst) > 0 →
      lookup (.table s) dst none "raise" t =
        .error (.valueError (lookupFailMsg
          (lookupMissingCount (leftJoinIndex t (selectCols s (dstList dst)))
            (dstList dst)) (dstList dst)))) ∧
    (∃ a b : String, lookupFailMsg
        (lookupMissingCount (leftJoinIndex t (selectCols s (dstList dst)))
          (dstList dst)) (dstList dst) =
      a ++ toString (lookupMissingCount
        (leftJoinIndex t (selectCols s (dstList dst))) (dstList dst)) ++ b) ∧
    (lookupMissingCount (leftJoinIndex t (selectCols s (dstList dst)))
        (dstList dst) > 0 →
      lookup (.table s) dst none "warn" t =
        .ok ([lookupWarnMsg (lookupMissingCount
            (leftJoinIndex t (selectCols s (dstList dst))) (dstList dst))
            (dstList dst)],
          { leftJoinIndex t (selectCols s (dstList dst)) with
            attrs := setAttr
              (leftJoinIndex t (selectCols s (dstList dst))).attrs
              "enrich_lookup" (.b true) })) ∧
    lookup (.table s) dst none "ignore" t =
      .ok ([], { leftJoinIndex t (selectCols s (dstList dst)) with
        attrs := setAttr (leftJoinIndex t (selectCols s (dstList dst))).attrs
          "enrich_lookup" (.b true) }) ∧
    (lookupMissingCount (leftJoinIndex t (selectCols s (dstList dst)))
        (dstList dst) = 0 →
      ∀ pol, lookup (.table s) dst none pol t =
        .ok ([], { leftJoinIndex t (selectCols s (dstList dst)) with
          attrs := setAttr
            (leftJoinIndex t (selectCols s (dstList dst))).attrs
            "enrich_lookup" (.b true) })) ∧
    getAttr (setAttr (leftJoinIndex t (selectCols s (dstList dst))).attrs
      "enrich_lookup" (.b true)) "enrich_lookup" = some (.b true) := by
  have hnil : (dstList dst).filter (fun c => !((colNames s).contains c)) = [] := by
    rw [List.filter_eq_nil_iff]
    intro c hc
    rw [hall c hc]
    decide
  refine ⟨fun hcnt => ?_, ?_, fun hcnt => ?_, ?_, fun hc0 pol => ?_,
    getAttr_setAttr_self _ _ _⟩
  · rw [lookup_table_reduce t s dst "raise" hnil]
    simp [hcnt]
  · refine ⟨"Lookup failed: ", " missing values in " ++
      String.intercalate ", " (dstList dst), ?_⟩
    unfold lookupFailMsg
    rw [String.append_assoc, String.append_assoc]
  · rw [lookup_table_reduce t s dst "warn" hnil]
    simp [hcnt]
  · rw [lookup_table_reduce t s dst "ignore" hnil]
    simp
  · rw [lookup_table_reduce t s dst pol hnil]
    simp [hc0]

/-- Witness for C6 at concrete tables: a non-overlapping index yields
count three and drives raise, warn and ignore; a matching index yields
count zero and succeeds under raise. -/
theorem claim_C6_witness :
    lookup (.table ⟨[("price", "int64")], [9], [[some 10]], []⟩)
        (.one "price") none "raise"
        ⟨[("a", "int64")], [0, 1, 2],
          [[some 1], [some 2], [some 3]], []⟩ =
      .error (.valueError (lookupFailMsg
        (lookupMissingCount (leftJoinIndex
          ⟨[("a", "int64")], [0, 1, 2], [[some 1], [some 2], [some 3]], []⟩
          (selectCols ⟨[("price", "int64")], [9], [[some 10]], []⟩
            (dstList (.one "price")))) (dstList (.one "price")))
        (dstList (.one "price")))) ∧
    lookup (.table ⟨[("price", "int64")], [0, 1, 2],
        [[some 10], [some 20], [some 30]], []⟩)
        (.one "price") none "raise"
        ⟨[("a", "int64")], [0, 1, 2],
          [[some 1], [some 2], [some 3]], []⟩ =
      .ok ([], { leftJoinIndex
        ⟨[("a", "int64")], [0, 1, 2], [[some 1], [some 2], [some 3]], []⟩
        (selectCols ⟨[("price", "int64")], [0, 1, 2],
          [[some 10], [some 20], [some 30]], []⟩
          (dstList (.one "price"))) with
        attrs := setAttr (leftJoinIndex
          ⟨[("a", "int64")], [0, 1, 2], [[some 1], [some 2], [some 3]], []⟩
          (selectCols ⟨[("price", "int64")], [0, 1, 2],
            [[some 10], [some 20], [some 30]], []⟩
            (dstList (.one "price")))).attrs "enrich_lookup" (.b true) }) := by
  constructor
  · exact (claim_C6 ⟨[("a", "int64")], [0, 1, 2],
      [[some 1], [some 2], [some 3]], []⟩
      ⟨[("price", "int64")], [9], [[some 10]], []⟩
      (.one "price") (by decide)).1 (by decide)
  · exact (claim_C6 ⟨[("a", "int64")], [0, 1, 2],
      [[some 1], [some 2], [some 3]], []⟩
      ⟨[("price", "int64")], [0, 1, 2],
        [[some 10], [some 20], [some 30]], []⟩
      (.one "price") (by decide)).2.2.2.2.1 (by decide) "raise"

/-- The column names an expression references. -/
def exprVars : Expr → List String
  | .var n => [n]
  | .lit _ => []
  | .add a b => exprVars a ++ exprVars b
  | .sub a b => exprVars a ++ exprVars b
  | .mul a b => exprVars a ++ exprVars b
  | .div a b => exprVars a ++ exprVars b

/-- The well-formedness predicate, in propositional form. -/
theorem wf_iff (t : Table) :
    wf t = true ↔ ∀ row ∈ t.rows, row.length = t.cols.length := by
  simp [wf]

/-- A present column name has a position within the column list. -/
theorem idxOf_mem :
    ∀ (cols : List (String × String)) (c : String), c ∈ cols.map Prod.fst →
      ∃ i, idxOf? cols c = some i ∧ i < cols.length := by
  intro cols
  induction cols with
  | nil => intro c hc; cases hc
  | cons p rest ih =>
    intro c hc
    by_cases hp : p.1 = c
    · exact ⟨0, by simp [idxOf?, hp], Nat.succ_pos _⟩
    · have hc2 : c ∈ rest.map Prod.fst := by
        rw [List.map_cons] at hc
        rcases List.mem_cons.mp hc with h | h
        · exact absurd h.symm hp
        · exact h
      obtain ⟨i, hi, hlt⟩ := ih c hc2
      exact ⟨i + 1, by simp [idxOf?, hp, hi], by simpa using Nat.succ_lt_succ hlt⟩

/-- A found position is within the column list. -/
theorem idxOf_some_lt :
    ∀ (cols : List (String × String)) (c : String) (i : Nat),
      idxOf? cols c = some i → i < cols.length := by
  intro cols
  induction cols with
  | nil => intro c i h; cases h
  | cons p rest ih =>
    intro c i h
    unfold idxOf? at h
    by_cases hp : p.1 = c
    · rw [if_pos (by simpa using hp)] at h
      cases h
      exact Nat.succ_pos _
    · rw [if_neg (by simpa using hp)] at h
      cases hidx : idxOf? rest c with
      | none => rw [hidx] at h; cases h
      | some j =>
        rw [hidx] at h
        cases h
        exact Nat.succ_lt_succ (ih c j hidx)

/-- A found position holds the looked-up name. -/
theorem idxOf_some_mem :
    ∀ (cols : List (String × String)) (c : String) (i : Nat),
      idxOf? cols c = some i → c ∈ cols.map Prod.fst := by
  intro cols
  induction cols with
  | nil => intro c i h; cases h
  | cons p rest ih =>
    intro c i h
    unfold idxOf? at h
    by_cases hp : p.1 = c
    · simp [hp]
    · rw [if_neg (by simpa using hp)] at h
      cases hidx : idxOf? rest c with
      | none => rw [hidx] at h; cases h
      | some j => exact List.mem_cons_of_mem _ (ih c j hidx)

/-- Evaluation of an expression on a full-length row succeeds whenever
every referenced column exists. -/
theorem evalCell_ok :
    ∀ (e : Expr) (cols : List (String × String)) (row : List (Option Rat)),
      row.length = cols.length →
      (∀ v ∈ exprVars e, v ∈ cols.map Prod.fst) →
      ∃ r, evalCell cols row e = some r := by
  intro e
  induction e with
  | var n =>
    intro cols row hlen hv
    obtain ⟨i, hi, hlt⟩ := idxOf_mem cols n (hv n (by simp [exprVars]))
    have hlt2 : i < row.length := by rw [hlen]; exact hlt
    refine ⟨row.get ⟨i, hlt2⟩, ?_⟩
    simp [evalCell, hi, List.get?_eq_get hlt2]
  | lit q => intro cols row _ _; exact ⟨some q, rfl⟩
  | add a b iha ihb =>
    intro cols row hlen hv
    obtain ⟨x, hx⟩ := iha cols row hlen
      (fun v hm => hv v (by simp [exprVars]; exact Or.inl hm))
    obtain ⟨y, hy⟩ := ihb cols row hlen
      (fun v hm => hv v (by simp [exprVars]; exact Or.inr hm))
    exact ⟨cellAdd x y, by simp [evalCell, hx, hy]⟩
  | sub a b iha ihb =>
    intro cols row hlen hv
    obtain ⟨x, hx⟩ := iha cols row hlen
      (fun v hm => hv v (by simp [exprVars]; exact Or.inl hm))
    obtain ⟨y, hy⟩ := ihb cols row hlen
      (fun v hm => hv v (by simp [exprVars]; exact Or.inr hm))
    exact ⟨cellSub x y, by simp [evalCell, hx, hy]⟩
  | mul a b iha ihb =>
    intro cols row hlen hv
    obtain ⟨x, hx⟩ := iha cols row hlen
      (fun v hm => hv v (by simp [exprVars]; exact Or.inl hm))
    obtain ⟨y, hy⟩ := ihb cols row hlen
      (fun v hm => hv v (by simp [exprVars]; exact Or.inr hm))
    exact ⟨cellMul x y, by simp [evalCell, hx, hy]⟩
  | div a b iha ihb =>
    intro cols row hlen hv
    obtain ⟨x, hx⟩ := iha cols row hlen
      (fun v hm => hv v (by simp [exprVars]; exact Or.inl hm))
    obtain ⟨y, hy⟩ := ihb cols row hlen
      (fun v hm => hv v (by simp [exprVars]; exact Or.inr hm))
    exact ⟨cellDiv x y, by simp [evalCell, hx, hy]⟩

/-- Row-wise evaluation succeeds, with one result per row, whenever each
row evaluates. -/
theorem evalRows_ok :
    ∀ (rows : List (List (Option Rat))) (cols : List (String × String))
      (e : Expr),
      (∀ row ∈ rows, ∃ r, evalCell cols row e = some r) →
      ∃ vs, evalRows cols e rows = some vs ∧ vs.length = rows.length := by
  intro rows
  induction rows with
  | nil => intro cols e _; exact ⟨[], rfl, rfl⟩
  | cons row rest ih =>
    intro cols e h
    obtain ⟨r, hr⟩ := h row (List.mem_cons_self row rest)
    obtain ⟨vs, hvs, hlvs⟩ := ih cols e
      (fun row2 hm => h row2 (List.mem_cons_of_mem row hm))
    refine ⟨r :: vs, ?_, by simp [hlvs]⟩
    unfold evalRows
    rw [hr, hvs]
    rfl

/-- The modelled expression evaluator succeeds on a well-formed table
whenever the expression parses and references only existing columns. -/
theorem evalExpr_ok (t : Table) (s : String) (e : Expr)
    (hp : parseExpr s = some e) (hwf : wf t = true)
    (hv : ∀ v ∈ exprVars e, v ∈ colNames t) :
    ∃ vs, evalExpr t s = some vs ∧ vs.length = t.rows.length := by
  unfold evalExpr
  rw [hp]
  exact evalRows_ok t.rows t.cols e
    (fun row hm => evalCell_ok e t.cols row ((wf_iff t).mp hwf row hm) hv)

/-- Positions of a name-preserving column-list update. -/
theorem map_fst_set_idx :
    ∀ (cols : List (String × String)) (i : Nat) (c d : String),
      idxOf? cols c = some i →
      (cols.set i (c, d)).map Prod.fst = cols.map Prod.fst := by
  intro cols
  induction cols with
  | nil => intro i c d h; cases h
  | cons p rest ih =>
    intro i c d h
    unfold idxOf? at h
    by_cases hp : p.1 = c
    · rw [if_pos (by simpa using hp)] at h
      cases h
      simp [hp]
    · rw [if_neg (by simpa using hp)] at h
      cases hidx : idxOf? rest c with
      | none => rw [hidx] at h; cases h
      | some j =>
        rw [hidx] at h
        cases h
        simp [ih j c d hidx]

/-- Assigning an existing column keeps the column names. -/
theorem colNames_setCol_some (t : Table) (c : String)
    (vals : List (Option Rat)) (i : Nat) (h : idxOf? t.cols c = some i) :
    colNames (setCol t c vals) = colNames t := by
  unfold setCol
  rw [h]
  exact map_fst_set_idx t.cols i c "float64" h

/-- Assigning a fresh column appends its name. -/
theorem colNames_setCol_none (t : Table) (c : String)
    (vals : List (Option Rat)) (h : idxOf? t.cols c = none) :
    colNames (setCol t c vals) = colNames t ++ [c] := by
  unfold setCol
  rw [h]
  simp [colNames]

/-- Membership after a column assignment: previous names survive and the
assigned name is present. -/
theorem mem_colNames_setCol (t : Table) (c : String)
    (vals : List (Option Rat)) (v : String)
    (h : v ∈ colNames t ∨ v = c) : v ∈ colNames (setCol t c vals) := by
  cases hidx : idxOf? t.cols c with
  | some i =>
    rw [colNames_setCol_some t c vals i hidx]
    rcases h with h | h
    · exact h
    · rw [h]
      exact idxOf_some_mem t.cols c i hidx
  | none =>
    rw [colNames_setCol_none t c vals hidx]
    rcases h with h | h
    · exact List.mem_append_left _ h
    · rw [h]; exact List.mem_append_right _ (by simp)

/-- Each element of a zipWith comes from one element of each input. -/
theorem mem_zipWith {α β γ : Type _} (f : α → β → γ) :
    ∀ (as : List α) (bs : List β) (x : γ), x ∈ List.zipWith f as bs →
      ∃ a b, a ∈ as ∧ b ∈ bs ∧ x = f a b := by
  intro as
  induction as with
  | nil => intro bs x h; cases h
  | cons a rest ih =>
    intro bs x h
    cases bs with
    | nil => cases h
    | cons b bs2 =>
      rcases List.mem_cons.mp h with h | h
      · exact ⟨a, b, by simp, by simp, h⟩
      · obtain ⟨a2, b2, ha, hb, hx⟩ := ih bs2 x h
        exact ⟨a2, b2, List.mem_cons_of_mem a ha,
          List.mem_cons_of_mem b hb, hx⟩

/-- A full-length assignment keeps the table well-formed. -/
theorem wf_setCol (t : Table) (c : String) (vals : List (Option Rat))
    (hwf : wf t = true) (_hlen : vals.length = t.rows.length) :
    wf (setCol t c vals) = true := by
  have hrows := (wf_iff t).mp hwf
  rw [wf_iff]
  unfold setCol
  cases hidx : idxOf? t.cols c with
  | some i =>
    intro row hm
    obtain ⟨r0, v0, hr0, _, hx⟩ := mem_zipWith _ t.rows vals row hm
    simp [hx, List.length_set, hrows r0 hr0]
  | none =>
    intro row hm
    obtain ⟨r0, v0, hr0, _, hx⟩ := mem_zipWith _ t.rows vals row hm
    simp [hx, hrows r0 hr0]

/-- One step of the derivation loop on a successful evaluation. -/
theorem deriveApply_cons (c ex : String) (rest : List (String × String))
    (t : Table) (vals : List (Option Rat)) (h : evalExpr t ex = some vals) :
    deriveApply ((c, ex) :: rest) t = deriveApply rest (setCol t c vals) := by
  conv_lhs => rw [deriveApply]
  rw [h]

/-- C3: derive applies the mapping entry by entry against the table as
amended by earlier entries, so a later expression can reference a column
created earlier in the same call: the total/discount mapping succeeds on
every well-formed table having price and quantity columns, and the
concrete a+b example yields c = 5, 7, 9 with provenance derived and the
recorded mapping. -/
theorem claim_C3 (fs : String → Option String)
    (yaml : String → Except String YamlVal) :
    (∀ t : Table, wf t = true → "price" ∈ colNames t →
      "quantity" ∈ colNames t →
      ∃ t2, derive fs yaml
        (.dict [("total", "price*quantity"), ("discount", "total*0.1")]) t =
        .ok ([], t2)) ∧
    derive fs yaml (.dict [("c", "a + b")])
        ⟨[("a", "int64"), ("b", "int64")], [0, 1, 2],
         [[some 1, some 4], [some 2, some 5], [some 3, some 6]], []⟩ =
      .ok ([], ⟨[("a", "int64"), ("b", "int64"), ("c", "float64")], [0, 1, 2],
        [[some 1, some 4, some 5], [some 2, some 5, some 7],
         [some 3, some 6, some 9]],
        [("enrich_derived", .b true),
         ("enrich_derivations", .m [("c", "a + b")])]⟩) := by
  constructor
  · intro t hwf hprice hquant
    have he1 : parseExpr "price*quantity" =
        some (.mul (.var "price") (.var "quantity")) := by decide
    have hv1 : ∀ v ∈ exprVars (Expr.mul (.var "price") (.var "quantity")),
        v ∈ colNames t := by
      intro v hv
      simp [exprVars] at hv
      rcases hv with h | h
      · rw [h]; exact hprice
      · rw [h]; exact hquant
    obtain ⟨vs1, hev1, hlen1⟩ := evalExpr_ok t "price*quantity"
      (.mul (.var "price") (.var "quantity")) he1 hwf hv1
    have hwf1 : wf (setCol t "total" vs1) = true :=
      wf_setCol t "total" vs1 hwf hlen1
    have he2 : parseExpr "total*0.1" =
        some (.mul (.var "total") (.lit (ratOfDigits ['0'] ['1']))) := rfl
    have hv2 : ∀ v ∈ exprVars
        (Expr.mul (.var "total") (.lit (ratOfDigits ['0'] ['1']))),
        v ∈ colNames (setCol t "total" vs1) := by
      intro v hv
      simp [exprVars] at hv
      rw [hv]
      exact mem_colNames_setCol t "total" vs1 "total" (Or.inr rfl)
    obtain ⟨vs2, hev2, _⟩ := evalExpr_ok (setCol t "total" vs1) "total*0.1"
      (.mul (.var "total") (.lit (ratOfDigits ['0'] ['1']))) he2 hwf1 hv2
    have hda : deriveApply
        [("total", "price*quantity"), ("discount", "total*0.1")] t =
        .ok (setCol (setCol t "total" vs1) "discount" vs2) := by
      rw [deriveApply_cons "total" "price*quantity" _ t vs1 hev1,
        deriveApply_cons "discount" "total*0.1" [] _ vs2 hev2]
      rfl
    refine ⟨{ setCol (setCol t "total" vs1) "discount" vs2 with
      attrs := setAttr (setAttr
        (setCol (setCol t "total" vs1) "discount" vs2).attrs
        "enrich_derived" (.b true)) "enrich_derivations"
        (.m [("total", "price*quantity"), ("discount", "total*0.1")]) }, ?_⟩
    simp only [derive, resolveSpec]
    rw [hda]
  · have hev : evalExpr ⟨[("a", "int64"), ("b", "int64")], [0, 1, 2],
        [[some 1, some 4], [some 2, some 5], [some 3, some 6]], []⟩ "a + b" =
        some [some ((1 : Rat) + 4), some ((2 : Rat) + 5),
          some ((3 : Rat) + 6)] := rfl
    rw [show ((1 : Rat) + 4) = 5 from by norm_num,
      show ((2 : Rat) + 5) = 7 from by norm_num,
      show ((3 : Rat) + 6) = 9 from by norm_num] at hev
    have hda2 : deriveApply [("c", "a + b")]
        ⟨[("a", "int64"), ("b", "int64")], [0, 1, 2],
          [[some 1, some 4], [some 2, some 5], [some 3, some 6]], []⟩ =
        .ok (setCol ⟨[("a", "int64"), ("b", "int64")], [0, 1, 2],
          [[some 1, some 4], [some 2, some 5], [some 3, some 6]], []⟩
          "c" [some 5, some 7, some 9]) := by
      rw [deriveApply_cons "c" "a + b" [] _ _ hev]
      rfl
    simp only [derive, resolveSpec]
    rw [hda2]
    decide

/-- Witness for C3: the order-sensitive total/discount mapping succeeds
on a concrete table with price and quantity columns. -/
theorem claim_C3_witness :
    ∃ t2, derive (fun _ => none) (fun _ => .error "e")
        (.dict [("total", "price*quantity"), ("discount", "total*0.1")])
        ⟨[("price", "int64"), ("quantity", "int64")], [0],
          [[some 2, some 3]], []⟩ =
      .ok ([], t2) :=
  (claim_C3 (fun _ => none) (fun _ => .error "e")).1
    ⟨[("price", "int64"), ("quantity", "int64")], [0], [[some 2, some 3]], []⟩
    (by decide) (by decide) (by decide)

/-- Reading below a freshly appended object is unchanged. -/
theorem hget_append_lt (h : Heap) (t : Table) (r : Nat) (hr : r < h.length) :
    hget (h ++ [t]) r = hget h r := by
  unfold hget
  simp [List.getD, List.getElem?_append, hr]

/-- Reading away from an overwritten reference is unchanged. -/
theorem hget_set_ne (h : Heap) (r i : Nat) (t : Table) (hne : i ≠ r) :
    hget (h.set i t) r = hget h r := by
  unfold hget
  simp [List.getD, List.getElem?_set_ne hne]

/-- Reading back an overwritten reference. -/
theorem hget_set_self (h : Heap) (i : Nat) (t : Table) (hi : i < h.length) :
    hget (h.set i t) i = t := by
  unfold hget
  simp [List.getD, List.getElem?_set_self, hi]

/-- A copy-then-transform operation leaves the caller's object untouched. -/
theorem runOnCopy_hget (f : Table → Except Err (List String × Table))
    (h : Heap) (r : Nat) (hr : r < h.length) :
    hget (runOnCopy f h r).1 r = hget h r := by
  simp only [runOnCopy, allocT, hset]
  cases hf : f (hget h r) with
  | ok p =>
    obtain ⟨ws, t2⟩ := p
    simp only [hf]
    rw [hget_set_ne _ _ _ _ (Nat.ne_of_lt hr).symm, hget_append_lt h _ r hr]
  | error e =>
    simp only [hf]
    exact hget_append_lt h _ r hr

/-- A copy-then-transform operation returns a reference distinct from the
caller's. -/
theorem runOnCopy_fresh (f : Table → Except Err (List String × Table))
    (h : Heap) (r : Nat) (hr : r < h.length) (ws : List String) (r2 : Nat)
    (hok : (runOnCopy f h r).2 = .ok (ws, r2)) : r2 ≠ r := by
  simp only [runOnCopy, allocT, hset] at hok
  cases hf : f (hget h r) with
  | ok p =>
    obtain ⟨ws0, t2⟩ := p
    simp only [hf] at hok
    obtain ⟨_, hr2⟩ := Prod.mk.inj (Except.ok.inj hok)
    rw [← hr2]
    exact (Nat.ne_of_lt hr).symm
  | error e =>
    simp only [hf] at hok
    cases hok

/-- C1: every operation leaves the caller's table object unchanged on the
heap; the table-returning operations (validate, derive, cast, lookup)
return a freshly allocated object distinct from the caller's reference;
in particular a successful validate returns a table carrying the
validated flag and the schema description with the same column, index
and row data as the input, and profile does not touch the heap at all. -/
theorem claim_C1 (sch : Schema) (fs : String → Option String)
    (yaml : String → Except String YamlVal) (sp : SpecArg)
    (cspec : List (String × String)) (src : Src) (dst : Dst)
    (resv : Option (Table → Src → Dst → Table)) (pol : String)
    (avail : Bool) (engine : String) (lz : Bool)
    (kwargs : List (String × String)) (h : Heap) (r : Nat)
    (hr : r < h.length) :
    hget (validateH sch h r).1 r = hget h r ∧
    (∀ ws r2, (validateH sch h r).2 = .ok (ws, r2) → r2 ≠ r ∧
      (hget (validateH sch h r).1 r2).cols = (hget h r).cols ∧
      (hget (validateH sch h r).1 r2).index = (hget h r).index ∧
      (hget (validateH sch h r).1 r2).rows = (hget h r).rows ∧
      getAttr (hget (validateH sch h r).1 r2).attrs "enrich_validated" =
        some (.b true) ∧
      getAttr (hget (validateH sch h r).1 r2).attrs "enrich_schema" =
        some (.s sch.descr)) ∧
    hget (deriveH fs yaml sp h r).1 r = hget h r ∧
    (∀ ws r2, (deriveH fs yaml sp h r).2 = .ok (ws, r2) → r2 ≠ r) ∧
    hget (castH cspec h r).1 r = hget h r ∧
    (∀ ws r2, (castH cspec h r).2 = .ok (ws, r2) → r2 ≠ r) ∧
    hget (lookupH src dst resv pol h r).1 r = hget h r ∧
    (∀ ws r2, (lookupH src dst resv pol h r).2 = .ok (ws, r2) → r2 ≠ r) ∧
    (profileH avail engine lz kwargs h r).1 = h := by
  refine ⟨?_, ?_, runOnCopy_hget _ h r hr,
    fun ws r2 hok => runOnCopy_fresh _ h r hr ws r2 hok,
    runOnCopy_hget _ h r hr,
    fun ws r2 hok => runOnCopy_fresh _ h r hr ws r2 hok,
    runOnCopy_hget _ h r hr,
    fun ws r2 hok => runOnCopy_fresh _ h r hr ws r2 hok, rfl⟩
  · simp only [validateH, allocT, hset]
    cases hc : schemaValidate sch (hget h r) with
    | ok v =>
      simp only [hc]
      rw [hget_set_ne _ _ _ _ (Nat.ne_of_lt hr).symm, hget_append_lt h _ r hr]
    | error e => simp only [hc]
  · intro ws r2 hok
    simp only [validateH, allocT, hset] at hok ⊢
    cases hc : schemaValidate sch (hget h r) with
    | error e => simp only [hc] at hok; cases hok
    | ok v =>
      simp only [hc] at hok ⊢
      obtain ⟨_, hr2⟩ := Prod.mk.inj (Except.ok.inj hok)
      have hv : v = hget h r := by
        unfold schemaValidate at hc
        by_cases hchk : sch.check (hget h r)
        · rw [if_pos hchk] at hc
          exact (Except.ok.inj hc).symm
        · rw [if_neg hchk] at hc; cases hc
      have hlt : h.length < (h ++ [v]).length := by simp
      rw [← hr2, hget_set_self (h ++ [v]) h.length _ hlt]
      refine ⟨(Nat.ne_of_lt hr).symm, by rw [hv], by rw [hv], by rw [hv],
        ?_, getAttr_setAttr_self _ _ _⟩
      rw [getAttr_setAttr_ne _ _ _ _ (by decide)]
      exact getAttr_setAttr_self _ _ _

/-- Witness for C1 on a one-object heap. -/
theorem claim_C1_witness :
    hget (validateH ⟨fun _ => true, "sch"⟩
      [⟨[("a", "int64")], [0], [[some 1]], []⟩] 0).1 0 =
      hget [⟨[("a", "int64")], [0], [[some 1]], []⟩] 0 ∧
    (1 : Nat) ≠ 0 ∧
    getAttr (hget (validateH ⟨fun _ => true, "sch"⟩
      [⟨[("a", "int64")], [0], [[some 1]], []⟩] 0).1 1).attrs
      "enrich_validated" = some (.b true) ∧
    (profileH true "ydata" false []
      [⟨[("a", "int64")], [0], [[some 1]], []⟩] 0).1 =
      [⟨[("a", "int64")], [0], [[some 1]], []⟩] := by
  have h := claim_C1 ⟨fun _ => true, "sch"⟩ (fun _ => none)
    (fun _ => .error "e") (.dict []) [] .other (.one "x") none "warn"
    true "ydata" false [] [⟨[("a", "int64")], [0], [[some 1]], []⟩] 0
    (by decide)
  have hb := h.2.1 [] 1 (by decide)
  exact ⟨h.1, hb.1, hb.2.2.2.2.1, h.2.2.2.2.2.2.2.2⟩

/-- Witness for C2: a concrete validate-derive-cast chain. -/
theorem claim_C2_witness :
    getAttr [("enrich_validated", AttrVal.b true), ("enrich_schema", AttrVal.s "sch"),
        ("enrich_derived", AttrVal.b true), ("enrich_derivations", AttrVal.m []),
        ("enrich_cast", AttrVal.b true), ("enrich_dtypes", AttrVal.m [])]
      "enrich_validated" = some (AttrVal.b true) ∧
    getAttr [("enrich_validated", AttrVal.b true), ("enrich_schema", AttrVal.s "sch"),
        ("enrich_derived", AttrVal.b true), ("enrich_derivations", AttrVal.m []),
        ("enrich_cast", AttrVal.b true), ("enrich_dtypes", AttrVal.m [])]
      "enrich_derived" = some (AttrVal.b true) ∧
    getAttr [("enrich_validated", AttrVal.b true), ("enrich_schema", AttrVal.s "sch"),
        ("enrich_derived", AttrVal.b true), ("enrich_derivations", AttrVal.m []),
        ("enrich_cast", AttrVal.b true), ("enrich_dtypes", AttrVal.m [])]
      "enrich_cast" = some (AttrVal.b true) := by
  have h := claim_C2 ⟨fun _ => true, "sch"⟩ (fun _ => none) (fun _ => .error "e")
    [] []
    ⟨[("a", "int64")], [0], [[some 1]], []⟩
    ⟨[("a", "int64")], [0], [[some 1]],
      [("enrich_validated", AttrVal.b true), ("enrich_schema", AttrVal.s "sch")]⟩
    ⟨[("a", "int64")], [0], [[some 1]],
      [("enrich_validated", AttrVal.b true), ("enrich_schema", AttrVal.s "sch"),
       ("enrich_derived", AttrVal.b true), ("enrich_derivations", AttrVal.m [])]⟩
    ⟨[("a", "int64")], [0], [[some 1]],
      [("enrich_validated", AttrVal.b true), ("enrich_schema", AttrVal.s "sch"),
       ("enrich_derived", AttrVal.b true), ("enrich_derivations", AttrVal.m []),
       ("enrich_cast", AttrVal.b true), ("enrich_dtypes", AttrVal.m [])]⟩
    [] [] [] (by decide) (by decide) (by decide)
  exact ⟨h.1, h.2.2.1, h.2.2.2.2.1⟩

end DfEnrich
